import Mathlib

/-!
Verification of the client connection core of MPD (src/src/client.c).

The development shallowly embeds the per-client state machine of client.c:
the client structure, the deferred output queue with its byte accounting,
the coalescing send buffer, the line buffer and read path, the command-list
accumulator and the idle/noidle subscription protocol.

Modelling conventions:
- Bytes are Lean Char values; the inbound buffer and all payloads are
  List Char.  A client's in-buffer holds only its valid bytes
  (bufferLength = buffer.length), bufferPos is the consumed offset.
  send_buf holds the used bytes (send_buf_used = send_buf.length), and each
  deferred chunk is its payload list (buf->size = chunk.length; the source
  keeps the two in lock step).
- The socket is an oracle: a list of WriteRes values consumed one per
  write(2) call.  An exhausted oracle means the socket would block
  (EAGAIN).  A write on a negative fd fails hard (EBADF), matching POSIX.
  The sent field is the ghost trace of bytes actually accepted by the
  socket, in order.
- Wall-clock time (lastTime) and logging are not modelled; neither is the
  blocking greeting xwrite of client_init, which bypasses the buffered
  output path entirely.
- The command collaborator (command.c), the idle name table (idle.c) and
  the numeric values of the COMMAND_RETURN codes live outside src/ and are
  modelled from the spec where needed, as documented on each definition.
-/

/-- Per-chunk bookkeeping overhead of a deferred buffer:
sizeof(struct deferred_buffer) - sizeof(buf->data), i.e. the header bytes
accounted in addition to the payload (8 on an LP64 platform, where the
struct is a size_t followed by a char[sizeof(long)] flexible tail). -/
def deferredOverhead : Nat := 8

/-- Accounted size of a deferred queue: the sum over chunks of the fixed
overhead plus the payload size, exactly what client_defer_output adds and
client_write_deferred subtracts. -/
def deferredAccount (q : List (List Char)) : Nat :=
  (q.map (fun chunk => deferredOverhead + chunk.length)).sum

/-- Result of one write(2) call on the client socket, as seen by the code:
the kernel accepted n bytes (capped at the requested length), or the call
failed with EAGAIN, EINTR, or a hard error. -/
inductive WriteRes where
  | ok (n : Nat)
  | again
  | intr
  | err
deriving DecidableEq

/-- Result of one read(2) call on the client socket: some bytes arrived
(an empty list models a 0 return, i.e. end of stream), the call was
interrupted (EINTR), or it failed hard. -/
inductive ReadRes where
  | bytes (data : List Char)
  | intr
  | err
deriving DecidableEq

/-- The struct client of client.c.  bufferLength is buffer.length and
send_buf_used is send_buf.length, so the two counters are implicit. -/
structure Client where
  buffer : List Char
  bufferPos : Nat
  fd : Int
  permission : Nat
  uid : Int
  cmd_list : List String
  cmd_list_OK : Int
  cmd_list_size : Nat
  deferred_send : List (List Char)
  deferred_bytes : Nat
  num : Nat
  send_buf : List Char
  idle_waiting : Bool
  idle_flags : Nat
  idle_subscriptions : Nat
deriving DecidableEq

/-- A client together with its socket model: the oracle of pending write
results and the ghost trace of bytes the socket has accepted. -/
structure Conn where
  client : Client
  results : List WriteRes
  sent : List Char
deriving DecidableEq

/-- COMMAND_RETURN_KILL. Modelled from the spec: the outcome codes come
from the command collaborator's header (command.h, outside src/); only
their distinctness from each other and from 0 and 1 matters here. -/
def COMMAND_RETURN_KILL : Int := 10

/-- COMMAND_RETURN_CLOSE. Modelled from the spec: see COMMAND_RETURN_KILL. -/
def COMMAND_RETURN_CLOSE : Int := 20

/-- client_is_expired: the fd is negative once the client is expired. -/
def client_is_expired (c : Client) : Bool := c.fd < 0

/-- client_set_expired: close the fd (if still open) and mark it -1. -/
def client_set_expired (c : Client) : Client :=
  if 0 ≤ c.fd then { c with fd := -1 } else c

/-- client_init: field initialisation of a fresh client (client.c line 134).
The greeting xwrite goes straight to the socket, outside the buffered
output path, and is not part of the connection state modelled here. -/
def client_init (fd : Int) (num : Nat) (uid : Int) (permission : Nat) : Client :=
  { buffer := []
    bufferPos := 0
    fd := fd
    permission := permission
    uid := uid
    cmd_list := []
    cmd_list_OK := -1
    cmd_list_size := 0
    deferred_send := []
    deferred_bytes := 0
    num := num
    send_buf := []
    idle_waiting := false
    idle_flags := 0
    idle_subscriptions := 0 }

/-- client_defer_output: account the chunk (overhead + payload) in
deferred_bytes first; if the new total exceeds the cap, expire the client
and drop the chunk (the accounting increment is not undone); otherwise
append the chunk to the tail of the deferred queue. -/
def client_defer_output (maxOut : Nat) (c : Client) (data : List Char) : Client :=
  if maxOut < c.deferred_bytes + (deferredOverhead + data.length) then
    client_set_expired
      { c with deferred_bytes := c.deferred_bytes + (deferredOverhead + data.length) }
  else
    { c with deferred_bytes := c.deferred_bytes + (deferredOverhead + data.length)
             deferred_send := c.deferred_send ++ [data] }

/-- Loop body of client_write_deferred: write the head chunk; on a partial
write shrink it in place and stop; on a full write pop it, credit the
accounted size and continue; stop silently on EAGAIN/EINTR (or an
exhausted oracle) and expire the client on a hard error. -/
def cwd_loop (c : Client) (sent : List Char) : List WriteRes → Client × List WriteRes × List Char
  | [] =>
    match c.deferred_send with
    | [] => (c, [], sent)
    | _ :: _ => if c.fd < 0 then (client_set_expired c, [], sent) else (c, [], sent)
  | r :: rs =>
    match c.deferred_send with
    | [] => (c, r :: rs, sent)
    | buf :: tail =>
      if c.fd < 0 then (client_set_expired c, r :: rs, sent)
      else
        match r with
        | WriteRes.again => (c, rs, sent)
        | WriteRes.intr => (c, rs, sent)
        | WriteRes.err => (client_set_expired c, rs, sent)
        | WriteRes.ok n =>
          if min n buf.length < buf.length then
            ({ c with deferred_bytes := c.deferred_bytes - min n buf.length
                      deferred_send := buf.drop (min n buf.length) :: tail },
             rs, sent ++ buf.take (min n buf.length))
          else
            cwd_loop
              { c with deferred_bytes := c.deferred_bytes - (deferredOverhead + buf.length)
                       deferred_send := tail }
              (sent ++ buf) rs

/-- client_write_deferred: drain the deferred queue against the socket. -/
def client_write_deferred (conn : Conn) : Conn :=
  { client := (cwd_loop conn.client conn.sent conn.results).1
    results := (cwd_loop conn.client conn.sent conn.results).2.1
    sent := (cwd_loop conn.client conn.sent conn.results).2.2 }

/-- client_write_direct: single direct write of the payload on an empty
deferred queue.  EAGAIN/EINTR defer the whole payload; a hard error
expires the client; a partial success defers the unwritten tail — note the
source compares the return value against send_buf_used, not against the
length argument (its only caller passes length = send_buf_used). -/
def client_write_direct (maxOut : Nat) (conn : Conn) (data : List Char) : Conn :=
  if conn.client.fd < 0 then
    { conn with client := client_set_expired conn.client }
  else
    match conn.results with
    | [] => { conn with client := client_defer_output maxOut conn.client data }
    | WriteRes.again :: rs =>
      { conn with results := rs, client := client_defer_output maxOut conn.client data }
    | WriteRes.intr :: rs =>
      { conn with results := rs, client := client_defer_output maxOut conn.client data }
    | WriteRes.err :: rs =>
      { conn with results := rs, client := client_set_expired conn.client }
    | WriteRes.ok n :: rs =>
      if min n data.length < conn.client.send_buf.length then
        { conn with results := rs
                    sent := conn.sent ++ data.take (min n data.length)
                    client := client_defer_output maxOut conn.client
                                (data.drop (min n data.length)) }
      else
        { conn with results := rs, sent := conn.sent ++ data.take (min n data.length) }

/-- client_write_output: flush the send buffer.  Nothing happens for an
expired client or an empty buffer; with a non-empty deferred queue the
payload is deferred behind it and a drain is attempted immediately;
otherwise a single direct write is attempted.  send_buf_used is reset to 0
in every case that reaches the flush. -/
def client_write_output (maxOut : Nat) (conn : Conn) : Conn :=
  if conn.client.fd < 0 ∨ conn.client.send_buf.length = 0 then conn
  else
    let conn2 :=
      if conn.client.deferred_send.isEmpty then
        client_write_direct maxOut conn conn.client.send_buf
      else
        client_write_deferred
          { conn with client := client_defer_output maxOut conn.client conn.client.send_buf }
    { conn2 with client := { conn2.client with send_buf := [] } }

/-- Loop body of client_write: copy as much as fits into the send buffer
and flush whenever it fills, until the payload is exhausted or the client
expires.  The fuel argument (instantiated with the payload length by
client_write) bounds the iteration count: every productive iteration
copies at least one byte, so the fuel never runs out before the payload
does.  The source asserts send_buf_used < capacity on entry to every
iteration; the room = 0 branch is that unreachable assert. -/
def client_write_go (maxOut : Nat) : Nat → Conn → List Char → Conn
  | 0, conn, _ => conn
  | fuel + 1, conn, data =>
    if data = [] then conn
    else if conn.client.fd < 0 then conn
    else if 4096 - conn.client.send_buf.length = 0 then conn
    else
      let copylen := min (4096 - conn.client.send_buf.length) data.length
      let conn1 := { conn with client :=
        { conn.client with send_buf := conn.client.send_buf ++ data.take copylen } }
      let conn2 := if 4096 ≤ conn1.client.send_buf.length
        then client_write_output maxOut conn1 else conn1
      client_write_go maxOut fuel conn2 (data.drop copylen)

/-- client_write: public entry point; a no-op on an expired client. -/
def client_write (maxOut : Nat) (conn : Conn) (data : List Char) : Conn :=
  if conn.client.fd < 0 then conn else client_write_go maxOut data.length conn data

/-- client_puts: write a string verbatim. -/
def client_puts (maxOut : Nat) (conn : Conn) (s : String) : Conn :=
  client_write maxOut conn s.data

/-- client_vprintf: the two-pass format is external (vsnprintf); the model
receives the measured length and the formatted bytes.  A zero or negative
measured length returns without any effect; otherwise exactly length bytes
are handed to client_write. -/
def client_vprintf (maxOut : Nat) (conn : Conn) (length : Int) (formatted : List Char) : Conn :=
  if length ≤ 0 then conn
  else client_write maxOut conn (formatted.take length.toNat)

/-- client_printf: formats and delegates to client_vprintf.  The model
takes the already-formatted text s; vsnprintf reports its length. -/
def client_printf (maxOut : Nat) (conn : Conn) (s : String) : Conn :=
  client_vprintf maxOut conn (s.length : Int) s.data

/-- command_success. Modelled from the spec: the command collaborator's
command_success (command.c, outside src/) emits the trailing OK line. -/
def command_success (maxOut : Nat) (conn : Conn) : Conn :=
  client_puts maxOut conn "OK\n"

/-- The changed: lines the notification loop of client_idle_notify emits:
one line per name whose bit index is set both in the saved flags and in
the client's subscription mask, in table order starting at bit i. -/
def changed_lines (names : List String) (i : Nat) (flags subs : Nat) : List Char :=
  match names with
  | [] => []
  | name :: rest =>
    (if (flags &&& (1 <<< i)) &&& subs ≠ 0
      then ("changed: " ++ name ++ "\n").data else [])
    ++ changed_lines rest (i + 1) flags subs

/-- The for loop of client_idle_notify: walk the idle name table and
client_printf one changed: line per overlapping bit.  The subscription
mask is re-read from the client each iteration, as in the source. -/
def notify_loop (maxOut : Nat) (flags : Nat) (i : Nat) (names : List String) (conn : Conn) : Conn :=
  match names with
  | [] => conn
  | name :: rest =>
    notify_loop maxOut flags (i + 1) rest
      (if (flags &&& (1 <<< i)) &&& conn.client.idle_subscriptions ≠ 0
        then client_printf maxOut conn ("changed: " ++ name ++ "\n")
        else conn)

/-- client_idle_notify: save and clear idle_flags, leave idle mode, emit
the changed: lines for the overlap and the trailing OK.  The idle name
table is the external idle collaborator's fixed table (idle.c, outside
src/), passed in as names. -/
def client_idle_notify (maxOut : Nat) (names : List String) (conn : Conn) : Conn :=
  client_puts maxOut
    (notify_loop maxOut conn.client.idle_flags 0 names
      { conn with client := { conn.client with idle_flags := 0, idle_waiting := false } })
    "OK\n"

/-- client_idle_wait: enter idle mode with the given subscription mask;
if pending flags already overlap it, notify synchronously and report
delivered (true), else stay parked (false).  The source asserts the client
is not already idle-waiting. -/
def client_idle_wait (maxOut : Nat) (names : List String) (conn : Conn) (flags : Nat) :
    Bool × Conn :=
  if ({ conn.client with idle_waiting := true, idle_subscriptions := flags }).idle_flags
      &&& flags ≠ 0 then
    (true, client_idle_notify maxOut names
      { conn with client :=
        { conn.client with idle_waiting := true, idle_subscriptions := flags } })
  else
    (false, { conn with client :=
      { conn.client with idle_waiting := true, idle_subscriptions := flags } })

/-- Per-client body of the client_manager_idle_add loop: skip expired
clients; OR the new flags into idle_flags; if the client is parked and the
accumulated flags overlap its subscriptions, notify it and flush. -/
def idle_add_one (maxOut : Nat) (names : List String) (flags : Nat) (conn : Conn) : Conn :=
  if conn.client.fd < 0 then conn
  else
    let conn1 := { conn with client :=
      { conn.client with idle_flags := conn.client.idle_flags ||| flags } }
    if conn1.client.idle_waiting ∧ conn1.client.idle_flags &&& conn1.client.idle_subscriptions ≠ 0
    then client_write_output maxOut (client_idle_notify maxOut names conn1)
    else conn1

/-- client_manager_idle_add: broadcast the event flags over the whole
client registry (the source asserts flags is non-zero). -/
def client_manager_idle_add (maxOut : Nat) (names : List String) (flags : Nat)
    (registry : List Conn) : List Conn :=
  registry.map (idle_add_one maxOut names flags)

/-- The tunables and external collaborators client_process_line depends
on.  The two command hooks model the opaque command collaborator
(command.c, outside src/): they may emit output through the client and
carry their own state of type sigma, and return an outcome code. -/
structure Ctx (σ : Type) where
  max_output_buffer_size : Nat
  max_command_list_size : Nat
  command_process : σ → Conn → String → Int × Conn × σ
  command_process_list : σ → Conn → Int → List String → Int × Conn × σ

/-- client_process_line: the per-line state machine.  noidle is handled
first (drop out of idle mode with a bare OK, or do nothing); any other
line during idle closes the client; in list mode the end marker reverses
and dispatches the accumulated list (cmd_list_size is not reset) while
any other line is appended under the size cap; otherwise the list-begin
markers switch modes and everything else goes to the command
collaborator, with a trailing OK on success and a flush. -/
def client_process_line {σ : Type} (ctx : Ctx σ) (st : σ) (conn : Conn) (line : String) :
    Int × Conn × σ :=
  if line = "noidle" then
    if conn.client.idle_waiting then
      (0, client_write_output ctx.max_output_buffer_size
            (command_success ctx.max_output_buffer_size
              { conn with client := { conn.client with idle_waiting := false } }), st)
    else (0, conn, st)
  else if conn.client.idle_waiting then
    (COMMAND_RETURN_CLOSE, conn, st)
  else if 0 ≤ conn.client.cmd_list_OK then
    if line = "command_list_end" then
      let conn1 := { conn with client :=
        { conn.client with cmd_list := conn.client.cmd_list.reverse } }
      let r := ctx.command_process_list st conn1 conn1.client.cmd_list_OK
                 conn1.client.cmd_list
      if r.1 = COMMAND_RETURN_CLOSE ∨ r.2.1.client.fd < 0 then
        (COMMAND_RETURN_CLOSE, r.2.1, r.2.2)
      else
        let conn2 := if r.1 = 0 then command_success ctx.max_output_buffer_size r.2.1 else r.2.1
        let conn3 := client_write_output ctx.max_output_buffer_size conn2
        (r.1, { conn3 with client :=
          { conn3.client with cmd_list := [], cmd_list_OK := -1 } }, r.2.2)
    else
      if ctx.max_command_list_size < conn.client.cmd_list_size + (line.length + 1) then
        (COMMAND_RETURN_CLOSE, { conn with client :=
          { conn.client with cmd_list_size := conn.client.cmd_list_size + (line.length + 1) } },
         st)
      else
        (1, { conn with client :=
          { conn.client with
              cmd_list_size := conn.client.cmd_list_size + (line.length + 1)
              cmd_list := line :: conn.client.cmd_list } }, st)
  else
    if line = "command_list_begin" then
      (1, { conn with client := { conn.client with cmd_list_OK := 0 } }, st)
    else if line = "command_list_ok_begin" then
      (1, { conn with client := { conn.client with cmd_list_OK := 1 } }, st)
    else
      let r := ctx.command_process st conn line
      if r.1 = COMMAND_RETURN_CLOSE ∨ r.2.1.client.fd < 0 then
        (COMMAND_RETURN_CLOSE, r.2.1, r.2.2)
      else
        let conn2 := if r.1 = 0 then command_success ctx.max_output_buffer_size r.2.1 else r.2.1
        (r.1, client_write_output ctx.max_output_buffer_size conn2, r.2.2)

/-- The \r stripping of client_input_received: a line whose last byte is
\r (the byte right before the \n) loses it. -/
def stripCR (raw : List Char) : List Char :=
  if raw.getLast? = some '\r' then raw.dropLast else raw

/-- The memchr loop of client_input_received over the unconsumed region:
scan for newline terminators, accumulating the current line in reverse
(accRev); at each newline, strip an optional trailing carriage return and
hand the line to client_process_line, returning early on KILL/CLOSE or if
the client expired mid-line (in which case the consumed count is unused,
as the source returns without updating bufferPos); otherwise report how
many bytes were consumed, counting each processed line plus its
newline. -/
def process_lines {σ : Type} (ctx : Ctx σ) (st : σ) (conn : Conn) (accRev : List Char)
    (consumed : Nat) : List Char → Int × Conn × σ × Nat
  | [] => (0, conn, st, consumed)
  | ch :: rest =>
    if ch = '\n' then
      let r := client_process_line ctx st conn (String.mk (stripCR accRev.reverse))
      if r.1 = COMMAND_RETURN_KILL ∨ r.1 = COMMAND_RETURN_CLOSE then
        (r.1, r.2.1, r.2.2, consumed)
      else if r.2.1.client.fd < 0 then (COMMAND_RETURN_CLOSE, r.2.1, r.2.2, consumed)
      else process_lines ctx r.2.2 r.2.1 [] (consumed + accRev.length + 1) rest
    else process_lines ctx st conn (ch :: accRev) consumed rest

/-- client_input_received: append the newly read bytes, run the line loop
over the unconsumed region, and afterwards either return the early-exit
code, or mark the consumed bytes and — when the buffer is full — close
the client on a full unconsumed buffer (line too long) or memmove the
tail to the front. -/
def client_input_received {σ : Type} (ctx : Ctx σ) (st : σ) (conn : Conn)
    (data : List Char) : Int × Conn × σ :=
  let conn0 := { conn with client := { conn.client with buffer := conn.client.buffer ++ data } }
  let r := process_lines ctx st conn0 [] 0 (conn0.client.buffer.drop conn0.client.bufferPos)
  if r.1 = COMMAND_RETURN_KILL ∨ r.1 = COMMAND_RETURN_CLOSE then (r.1, r.2.1, r.2.2.1)
  else
    let pos := r.2.1.client.bufferPos + r.2.2.2
    if r.2.1.client.buffer.length = 4096 then
      if pos = 0 then (COMMAND_RETURN_CLOSE, r.2.1, r.2.2.1)
      else
        (0, { r.2.1 with client :=
          { r.2.1.client with buffer := r.2.1.client.buffer.drop pos, bufferPos := 0 } },
         r.2.2.1)
    else
      (0, { r.2.1 with client := { r.2.1.client with bufferPos := pos } }, r.2.2.1)

/-- client_read: one non-blocking read into the free tail of the inbound
buffer (the oracle's bytes are truncated to the available room, as
read(2) is called with that count).  A positive count feeds
client_input_received; EINTR retries later; 0 (peer closed) or a hard
error closes the client. -/
def client_read {σ : Type} (ctx : Ctx σ) (st : σ) (conn : Conn) (r : ReadRes) :
    Int × Conn × σ :=
  match r with
  | ReadRes.bytes data =>
    if (data.take (4096 - conn.client.buffer.length)).length = 0 then
      (COMMAND_RETURN_CLOSE, conn, st)
    else
      client_input_received ctx st conn (data.take (4096 - conn.client.buffer.length))
  | ReadRes.intr => (0, conn, st)
  | ReadRes.err => (COMMAND_RETURN_CLOSE, conn, st)

/-- Accounted bytes of the queued command-list lines: each line costs its
length plus one terminator byte, as in client_process_line. -/
def listBytes (lines : List String) : Nat :=
  (lines.map (fun l => l.length + 1)).sum

/-- Sequential line processing, as the read loop would drive it; return
codes are not inspected (the theorems using this guarantee every line is
accepted). -/
def run_lines {σ : Type} (ctx : Ctx σ) : List String → σ → Conn → σ × Conn
  | [], st, conn => (st, conn)
  | l :: rest, st, conn =>
    run_lines ctx rest (client_process_line ctx st conn l).2.2
      (client_process_line ctx st conn l).2.1

/-- A stateless command collaborator whose commands succeed silently (like
ping), with the default tunables of client.c. -/
def hooks0 : Ctx Unit :=
  { max_output_buffer_size := 8192 * 1024
    max_command_list_size := 2048 * 1024
    command_process := fun st conn _l => (0, conn, st)
    command_process_list := fun st conn _ok _lst => (0, conn, st) }

/-- A command collaborator that records every list dispatch it receives
(mode and command list), to observe what command_process_list is given. -/
def recordHooks (maxOut maxCL : Nat) : Ctx (List (Int × List String)) :=
  { max_output_buffer_size := maxOut
    max_command_list_size := maxCL
    command_process := fun st conn _l => (0, conn, st)
    command_process_list := fun st conn ok lst => (0, conn, st ++ [(ok, lst)]) }

/-- A freshly initialised connection whose socket currently accepts
nothing (every direct write would block). -/
def conn0 : Conn := { client := client_init 0 0 (-1) 0, results := [], sent := [] }

/-- A freshly initialised connection whose socket will accept 3 bytes on
the next write. -/
def conn0ok3 : Conn := { client := client_init 0 0 (-1) 0, results := [WriteRes.ok 3], sent := [] }

/-- A parked idle client with one already-queued deferred chunk: one
payload byte, accounted as overhead + 1 = 9 bytes.  Used to exhibit the
accounting discrepancy of an over-cap defer. -/
def connCE : Conn :=
  { client := { client_init 0 1 (-1) 0 with
      deferred_send := [['x']]
      deferred_bytes := 9
      idle_waiting := true
      idle_subscriptions := 1
      idle_flags := 0 }
    results := []
    sent := [] }

/-- A parked idle client subscribed to bit 0, with empty buffers. -/
def connW : Conn :=
  { client := { client_init 0 2 (-1) 0 with
      idle_waiting := true
      idle_subscriptions := 1
      idle_flags := 0 }
    results := []
    sent := [] }

/-- A live client with four coalesced output bytes whose socket will
accept only two of them on the next write. -/
def connC3 : Conn :=
  { client := { client_init 0 3 (-1) 0 with send_buf := ['a', 'b', 'c', 'd'] }
    results := [WriteRes.ok 2]
    sent := [] }

/-- A fresh client with a pending idle event on bit 0, not yet waiting. -/
def connF : Conn :=
  { client := { client_init 0 4 (-1) 0 with idle_flags := 1 }
    results := []
    sent := [] }

/-- A fresh client already in silent command-list mode. -/
def connL : Conn :=
  { client := { client_init 0 5 (-1) 0 with cmd_list_OK := 0 }
    results := []
    sent := [] }

/-- A command collaborator with a tiny 5-byte command-list cap, to
exercise the cap boundary. -/
def hooksSmall : Ctx Unit :=
  { max_output_buffer_size := 100
    max_command_list_size := 5
    command_process := fun st conn _l => (0, conn, st)
    command_process_list := fun st conn _ok _lst => (0, conn, st) }

/-- A 4095-byte command line (no newline, no carriage return). -/
def lineA : List Char := List.replicate 4095 'a'

/-- 4096 inbound bytes containing no newline at all. -/
def lineB : List Char := List.replicate 4096 'b'

/-- The deferred accounting invariant of a client: as long as the client
is live (fd not negative), deferred_bytes is exactly the accounted size
of the queued chunks.  (An over-cap defer expires the client and leaves
the counter above the queued total, which is why the invariant is
conditional on liveness.) -/
def deferred_inv (c : Client) : Prop :=
  0 ≤ c.fd → c.deferred_bytes = deferredAccount c.deferred_send

/-- The connection state after scenario A of the line-length boundary:
the 4095-byte line was parsed and answered, the OK reply was written to
the socket, and the full 4096-byte inbound buffer is about to be
recycled. -/
def connA3 : Conn :=
  { client :=
      { buffer := List.replicate 4095 'a' ++ ['\n']
        bufferPos := 0
        fd := 0
        permission := 0
        uid := -1
        cmd_list := []
        cmd_list_OK := -1
        cmd_list_size := 0
        deferred_send := []
        deferred_bytes := 0
        num := 0
        send_buf := []
        idle_waiting := false
        idle_flags := 0
        idle_subscriptions := 0 }
    results := []
    sent := ("OK\n").data }

/-- The connection state after scenario B of the line-length boundary:
4096 bytes arrived with no newline; nothing was consumed. -/
def connB2 : Conn :=
  { conn0 with client := { conn0.client with buffer := List.replicate 4096 'b' } }

/-! ### Helper lemmas on the output path -/

/-- Writing an empty payload is a no-op of the write loop. -/
theorem client_write_go_nil (maxOut : Nat) (fuel : Nat) (conn : Conn) :
    client_write_go maxOut fuel conn [] = conn := by
  cases fuel with
  | zero => rfl
  | succ fuel => rfl

/-- When the payload fits in the remaining send-buffer room, client_write
merely appends it to the send buffer: one copy, no flush, no socket
activity. -/
theorem client_write_append (maxOut : Nat) (conn : Conn) (data : List Char)
    (hfd : 0 ≤ conn.client.fd)
    (hroom : conn.client.send_buf.length + data.length < 4096) :
    client_write maxOut conn data =
      { conn with client := { conn.client with send_buf := conn.client.send_buf ++ data } } := by
  have hnf : ¬ conn.client.fd < 0 := by omega
  unfold client_write
  rw [if_neg hnf]
  cases hd : data with
  | nil =>
    rw [client_write_go_nil]
    simp
  | cons a as =>
    subst hd
    have hr2 : ¬ (4096 - conn.client.send_buf.length = 0) := by omega
    have hmin : min (4096 - conn.client.send_buf.length) (a :: as).length
        = (a :: as).length := by
      apply Nat.min_eq_right
      omega
    show client_write_go maxOut (as.length + 1) conn (a :: as) = _
    unfold client_write_go
    rw [if_neg (by simp : ¬ (a :: as = [])), if_neg hnf, if_neg hr2]
    simp only [hmin, List.take_length, List.drop_length]
    have hflush : ¬ (4096 ≤ conn.client.send_buf.length + (a :: as).length) := by omega
    simp only [List.length_append, if_neg hflush]
    rw [client_write_go_nil]

/-- client_puts appends the string to the send buffer when it fits. -/
theorem client_puts_append (maxOut : Nat) (conn : Conn) (s : String)
    (hfd : 0 ≤ conn.client.fd)
    (hroom : conn.client.send_buf.length + s.data.length < 4096) :
    client_puts maxOut conn s =
      { conn with client := { conn.client with send_buf := conn.client.send_buf ++ s.data } } := by
  unfold client_puts
  exact client_write_append maxOut conn s.data hfd hroom

/-- client_printf appends the formatted text to the send buffer when the
text is non-empty and fits. -/
theorem client_printf_append (maxOut : Nat) (conn : Conn) (s : String)
    (hfd : 0 ≤ conn.client.fd)
    (hpos : s.data ≠ [])
    (hroom : conn.client.send_buf.length + s.data.length < 4096) :
    client_printf maxOut conn s =
      { conn with client := { conn.client with send_buf := conn.client.send_buf ++ s.data } } := by
  unfold client_printf client_vprintf
  have hlen : 0 < s.data.length := List.length_pos.mpr hpos
  have hslen : s.length = s.data.length := rfl
  have hneg : ¬ ((s.length : Int) ≤ 0) := by
    rw [hslen]
    omega
  rw [if_neg hneg]
  have htake : s.data.take (s.length : Int).toNat = s.data := by
    rw [Int.toNat_ofNat, hslen, List.take_length]
  rw [htake]
  exact client_write_append maxOut conn s.data hfd hroom

/-- The notification loop of client_idle_notify appends exactly the
changed: lines of the overlap to the send buffer when they fit, and
touches nothing else. -/
theorem notify_loop_shape (maxOut : Nat) (flags : Nat) (names : List String) :
    ∀ (i : Nat) (conn : Conn), 0 ≤ conn.client.fd →
    conn.client.send_buf.length
        + (changed_lines names i flags conn.client.idle_subscriptions).length < 4096 →
    notify_loop maxOut flags i names conn =
      { conn with client := { conn.client with send_buf :=
          conn.client.send_buf ++ changed_lines names i flags conn.client.idle_subscriptions } } := by
  induction names with
  | nil =>
    intro i conn hfd hroom
    simp [notify_loop, changed_lines]
  | cons name rest ih =>
    intro i conn hfd hroom
    by_cases hbit : (flags &&& (1 <<< i)) &&& conn.client.idle_subscriptions ≠ 0
    · simp only [changed_lines, if_pos hbit, List.length_append] at hroom
      have hline := client_printf_append maxOut conn ("changed: " ++ name ++ "\n") hfd
        (by simp [String.data_append]) (by omega)
      have hrec := ih (i + 1)
        { conn with client := { conn.client with
            send_buf := conn.client.send_buf ++ ("changed: " ++ name ++ "\n").data } }
        (by simpa using hfd)
        (by simp only [List.length_append]; simpa using (by omega :
          conn.client.send_buf.length + ("changed: " ++ name ++ "\n").data.length
            + (changed_lines rest (i + 1) flags conn.client.idle_subscriptions).length < 4096))
      rw [notify_loop, if_pos hbit, hline, hrec]
      simp [changed_lines, if_pos hbit, List.append_assoc]
    · simp only [changed_lines, if_neg hbit, List.nil_append] at hroom
      rw [notify_loop, if_neg hbit, ih (i + 1) conn hfd hroom]
      simp [changed_lines, if_neg hbit]

/-- client_idle_notify leaves idle mode, clears the whole pending flag
mask, and appends the changed: lines of the overlap followed by OK to the
send buffer, when they fit. -/
theorem client_idle_notify_shape (maxOut : Nat) (names : List String) (conn : Conn)
    (hfd : 0 ≤ conn.client.fd)
    (hroom : conn.client.send_buf.length
        + (changed_lines names 0 conn.client.idle_flags conn.client.idle_subscriptions).length
        + 3 < 4096) :
    client_idle_notify maxOut names conn =
      { conn with client := { conn.client with
          idle_flags := 0
          idle_waiting := false
          send_buf := conn.client.send_buf
            ++ changed_lines names 0 conn.client.idle_flags conn.client.idle_subscriptions
            ++ ("OK\n").data } } := by
  unfold client_idle_notify
  rw [notify_loop_shape maxOut conn.client.idle_flags names 0
    { conn with client := { conn.client with idle_flags := 0, idle_waiting := false } }
    (by simpa using hfd)
    (by simpa using (by omega : conn.client.send_buf.length
      + (changed_lines names 0 conn.client.idle_flags conn.client.idle_subscriptions).length
      < 4096))]
  have h3 : ("OK\n").data.length = 3 := by decide
  rw [client_puts_append maxOut _ "OK\n" (by simpa using hfd)
    (by simpa using (by rw [List.length_append, h3]; omega : (conn.client.send_buf
        ++ changed_lines names 0 conn.client.idle_flags conn.client.idle_subscriptions).length
        + ("OK\n").data.length < 4096))]

/-- Claim C4: for a client that is not already idle-waiting (and whose
send buffer can hold the notification), client_idle_wait returns
delivered (true) exactly when the pending idle_flags overlap the
requested flags at entry; in that case the notification (the changed:
lines of the overlap and the trailing OK) is emitted synchronously into
the output path and afterwards idle_flags = 0 and idle_waiting = false;
otherwise it returns parked (false) having set idle_waiting and
idle_subscriptions = flags, with no output and no other change. -/
theorem claim_C4 (maxOut : Nat) (names : List String) (conn : Conn) (flags : Nat)
    (hnw : conn.client.idle_waiting = false)
    (hfd : 0 ≤ conn.client.fd)
    (hroom : conn.client.send_buf.length
        + (changed_lines names 0 conn.client.idle_flags flags).length + 3 < 4096) :
    ((client_idle_wait maxOut names conn flags).1 = true
        ↔ conn.client.idle_flags &&& flags ≠ 0)
    ∧ (conn.client.idle_flags &&& flags ≠ 0 →
        (client_idle_wait maxOut names conn flags).2 =
          { conn with client := { conn.client with
              idle_waiting := false
              idle_subscriptions := flags
              idle_flags := 0
              send_buf := conn.client.send_buf
                ++ changed_lines names 0 conn.client.idle_flags flags
                ++ ("OK\n").data } })
    ∧ (conn.client.idle_flags &&& flags = 0 →
        (client_idle_wait maxOut names conn flags).1 = false ∧
        (client_idle_wait maxOut names conn flags).2 =
          { conn with client := { conn.client with
              idle_waiting := true
              idle_subscriptions := flags } }) := by
  unfold client_idle_wait
  by_cases hov : conn.client.idle_flags &&& flags ≠ 0
  · rw [if_pos hov]
    refine ⟨by simpa using hov, fun _ => ?_, fun h0 => absurd h0 hov⟩
    rw [client_idle_notify_shape maxOut names
      { conn with client := { conn.client with idle_waiting := true, idle_subscriptions := flags } }
      (by simpa using hfd) (by simpa using hroom)]
  · rw [if_neg hov]
    push_neg at hov
    exact ⟨by simpa using hov, fun hne => absurd hov hne, fun _ => ⟨rfl, rfl⟩⟩

/-- Flushing a non-empty send buffer on a live client with an empty
deferred queue and a socket that would block defers the whole payload:
the send buffer becomes the single queued chunk, accounted as overhead
plus payload. -/
theorem client_write_output_defer (maxOut : Nat) (conn : Conn)
    (hfd : 0 ≤ conn.client.fd)
    (hsb : conn.client.send_buf ≠ [])
    (hq : conn.client.deferred_send = [])
    (hres : conn.results = [])
    (hcap : conn.client.deferred_bytes + (deferredOverhead + conn.client.send_buf.length)
      ≤ maxOut) :
    client_write_output maxOut conn =
      { conn with client := { conn.client with
          send_buf := []
          deferred_send := [conn.client.send_buf]
          deferred_bytes := conn.client.deferred_bytes
            + (deferredOverhead + conn.client.send_buf.length) } } := by
  have hlen : conn.client.send_buf.length ≠ 0 := by
    have := List.length_pos.mpr hsb
    omega
  unfold client_write_output
  rw [if_neg (by omega : ¬ (conn.client.fd < 0 ∨ conn.client.send_buf.length = 0))]
  rw [if_pos (by simp [hq] : conn.client.deferred_send.isEmpty = true)]
  unfold client_write_direct
  rw [if_neg (by omega : ¬ conn.client.fd < 0), hres]
  unfold client_defer_output
  rw [if_neg (by omega : ¬ maxOut < conn.client.deferred_bytes
    + (deferredOverhead + conn.client.send_buf.length))]
  simp [hq]

/-- Claim C6: a noidle line while idle-waiting emits exactly OK (no
changed: lines) — here, with empty buffers and a blocking socket, the OK
becomes the single deferred chunk — clears idle_waiting and leaves every
other part of the client state unchanged, returning 0 (not close); a
noidle line while not idle-waiting returns 0 and changes nothing at
all. -/
theorem claim_C6 (σ : Type) (ctx : Ctx σ) (st : σ) (conn : Conn) :
    (conn.client.idle_waiting = true → 0 ≤ conn.client.fd →
      conn.client.send_buf = [] → conn.client.deferred_send = [] → conn.results = [] →
      conn.client.deferred_bytes + (deferredOverhead + 3) ≤ ctx.max_output_buffer_size →
      client_process_line ctx st conn "noidle" =
        (0, { conn with client := { conn.client with
            idle_waiting := false
            send_buf := []
            deferred_send := [("OK\n").data]
            deferred_bytes := conn.client.deferred_bytes + (deferredOverhead + 3) } }, st))
    ∧ (conn.client.idle_waiting = false →
      client_process_line ctx st conn "noidle" = (0, conn, st)) := by
  constructor
  · intro hw hfd hsb hq hres hcap
    unfold client_process_line
    rw [if_pos rfl, if_pos (by rw [hw])]
    unfold command_success
    rw [client_puts_append ctx.max_output_buffer_size _ "OK\n" (by simpa using hfd)
      (by simp [hsb])]
    rw [client_write_output_defer ctx.max_output_buffer_size _ (by simpa using hfd)
      (by simp [hsb]) (by simpa using hq) (by simpa using hres)
      (by simpa using (by simpa [hsb] using hcap :
        conn.client.deferred_bytes + (deferredOverhead
          + (conn.client.send_buf ++ ("OK\n").data).length) ≤ ctx.max_output_buffer_size))]
    simp [hsb]
  · intro hw
    unfold client_process_line
    rw [if_pos rfl, if_neg (by rw [hw]; exact Bool.false_ne_true)]

/-- Claim C5: client_manager_idle_add broadcasts over the registry by
applying the per-client body to every entry; that body leaves expired
clients untouched, ORs the flags into idle_flags of every live client,
and, for a parked client whose accumulated flags overlap its
subscriptions (with empty buffers and a blocking socket), immediately
notifies it — one changed: line per subscribed set bit then OK, flushed
into the deferred queue — clearing the entire idle_flags mask (including
unsubscribed bits) and idle_waiting. -/
theorem claim_C5 (maxOut : Nat) (names : List String) (flags : Nat) (registry : List Conn)
    (hflags : flags ≠ 0) :
    client_manager_idle_add maxOut names flags registry
        = registry.map (idle_add_one maxOut names flags)
    ∧ ∀ conn : Conn,
      (conn.client.fd < 0 → idle_add_one maxOut names flags conn = conn)
      ∧ (0 ≤ conn.client.fd →
          ¬(conn.client.idle_waiting = true
             ∧ (conn.client.idle_flags ||| flags) &&& conn.client.idle_subscriptions ≠ 0) →
          idle_add_one maxOut names flags conn =
            { conn with client := { conn.client with
                idle_flags := conn.client.idle_flags ||| flags } })
      ∧ (0 ≤ conn.client.fd → conn.client.idle_waiting = true →
          (conn.client.idle_flags ||| flags) &&& conn.client.idle_subscriptions ≠ 0 →
          conn.client.send_buf = [] → conn.client.deferred_send = [] → conn.results = [] →
          (changed_lines names 0 (conn.client.idle_flags ||| flags)
              conn.client.idle_subscriptions).length + 3 < 4096 →
          conn.client.deferred_bytes + (deferredOverhead
            + (changed_lines names 0 (conn.client.idle_flags ||| flags)
                  conn.client.idle_subscriptions ++ ("OK\n").data).length) ≤ maxOut →
          idle_add_one maxOut names flags conn =
            { conn with client := { conn.client with
                idle_flags := 0
                idle_waiting := false
                send_buf := []
                deferred_send := [changed_lines names 0 (conn.client.idle_flags ||| flags)
                    conn.client.idle_subscriptions ++ ("OK\n").data]
                deferred_bytes := conn.client.deferred_bytes + (deferredOverhead
                  + (changed_lines names 0 (conn.client.idle_flags ||| flags)
                        conn.client.idle_subscriptions ++ ("OK\n").data).length) } }) := by
  refine ⟨rfl, fun conn => ⟨fun hexp => ?_, fun hfd hnot => ?_, ?_⟩⟩
  · unfold idle_add_one
    rw [if_pos hexp]
  · unfold idle_add_one
    rw [if_neg (by omega : ¬ conn.client.fd < 0)]
    rw [if_neg (by simpa using hnot)]
  · intro hfd hw hov hsb hq hres hroom hcap
    unfold idle_add_one
    rw [if_neg (by omega : ¬ conn.client.fd < 0)]
    rw [if_pos (by simp [hw]; exact hov)]
    rw [client_idle_notify_shape maxOut names
      { conn with client := { conn.client with
          idle_flags := conn.client.idle_flags ||| flags } }
      (by simpa using hfd)
      (by simpa [hsb] using hroom)]
    rw [client_write_output_defer maxOut _ (by simpa using hfd)
      (by
        simp only [hsb, List.nil_append]
        intro hcon
        have : (changed_lines names 0 (conn.client.idle_flags ||| flags)
            conn.client.idle_subscriptions ++ ("OK\n").data).length = 0 := by rw [hcon]; rfl
        simp [List.length_append] at this)
      (by simpa using hq) (by simpa using hres)
      (by
        have hcap2 := hcap
        simp only [List.length_append] at hcap2
        simp only [hsb, List.nil_append, List.length_append]
        simpa using hcap2)]
    simp [hsb]

/-- In list mode, a line within the size cap is prepended to the
accumulator and accounted as its length plus one terminator byte. -/
theorem process_line_append (σ : Type) (ctx : Ctx σ) (st : σ) (conn : Conn) (line : String)
    (hnl : line ≠ "noidle")
    (hw : conn.client.idle_waiting = false)
    (hok : 0 ≤ conn.client.cmd_list_OK)
    (hne : line ≠ "command_list_end")
    (hsz : conn.client.cmd_list_size + (line.length + 1) ≤ ctx.max_command_list_size) :
    client_process_line ctx st conn line =
      (1, { conn with client := { conn.client with
          cmd_list_size := conn.client.cmd_list_size + (line.length + 1)
          cmd_list := line :: conn.client.cmd_list } }, st) := by
  unfold client_process_line
  rw [if_neg hnl, if_neg (by rw [hw]; exact Bool.false_ne_true), if_pos hok, if_neg hne,
    if_neg (by omega : ¬ ctx.max_command_list_size
      < conn.client.cmd_list_size + (line.length + 1))]

/-- In list mode, a line that would push the accounted size past the cap
is not appended: the size field keeps the increment and the processor
answers close. -/
theorem process_line_overflow (σ : Type) (ctx : Ctx σ) (st : σ) (conn : Conn) (line : String)
    (hnl : line ≠ "noidle")
    (hw : conn.client.idle_waiting = false)
    (hok : 0 ≤ conn.client.cmd_list_OK)
    (hne : line ≠ "command_list_end")
    (hsz : ctx.max_command_list_size < conn.client.cmd_list_size + (line.length + 1)) :
    client_process_line ctx st conn line =
      (COMMAND_RETURN_CLOSE, { conn with client := { conn.client with
          cmd_list_size := conn.client.cmd_list_size + (line.length + 1) } }, st) := by
  unfold client_process_line
  rw [if_neg hnl, if_neg (by rw [hw]; exact Bool.false_ne_true), if_pos hok, if_neg hne,
    if_pos hsz]

/-- Claim C7: while in command-list mode, a queued line is accounted as
its length plus one byte; it is appended exactly when the running
cmd_list_size stays at or below max_command_list_size (equality is
accepted), and one byte beyond the cap makes the processor return close
instead of appending. -/
theorem claim_C7 (σ : Type) (ctx : Ctx σ) (st : σ) (conn : Conn) (line : String)
    (hnl : line ≠ "noidle")
    (hw : conn.client.idle_waiting = false)
    (hok : 0 ≤ conn.client.cmd_list_OK)
    (hne : line ≠ "command_list_end") :
    (conn.client.cmd_list_size + (line.length + 1) ≤ ctx.max_command_list_size →
      client_process_line ctx st conn line =
        (1, { conn with client := { conn.client with
            cmd_list_size := conn.client.cmd_list_size + (line.length + 1)
            cmd_list := line :: conn.client.cmd_list } }, st))
    ∧ (ctx.max_command_list_size < conn.client.cmd_list_size + (line.length + 1) →
      client_process_line ctx st conn line =
        (COMMAND_RETURN_CLOSE, { conn with client := { conn.client with
            cmd_list_size := conn.client.cmd_list_size + (line.length + 1) } }, st)) :=
  ⟨fun hsz => process_line_append σ ctx st conn line hnl hw hok hne hsz,
   fun hsz => process_line_overflow σ ctx st conn line hnl hw hok hne hsz⟩

/-- Accumulation invariant of command-list mode: feeding a sequence of
ordinary lines that all fit under the cap prepends each of them, so the
accumulator holds the reversed sequence, sized at its accounted bytes;
the collaborator state is untouched. -/
theorem run_lines_accum (σ : Type) (ctx : Ctx σ) (lines : List String) :
    ∀ (st : σ) (conn : Conn),
    conn.client.idle_waiting = false →
    0 ≤ conn.client.cmd_list_OK →
    (∀ l ∈ lines, l ≠ "noidle" ∧ l ≠ "command_list_end") →
    conn.client.cmd_list_size + listBytes lines ≤ ctx.max_command_list_size →
    run_lines ctx lines st conn =
      (st, { conn with client := { conn.client with
          cmd_list := lines.reverse ++ conn.client.cmd_list
          cmd_list_size := conn.client.cmd_list_size + listBytes lines } }) := by
  induction lines with
  | nil =>
    intro st conn hw hok hls hsz
    simp [run_lines, listBytes]
  | cons l rest ih =>
    intro st conn hw hok hls hsz
    have hbytes : listBytes (l :: rest) = (l.length + 1) + listBytes rest := by
      simp [listBytes]
    have hstep := process_line_append σ ctx st conn l (hls l (by simp)).1 hw hok
      (hls l (by simp)).2 (by rw [hbytes] at hsz; omega)
    rw [run_lines, hstep]
    rw [ih st
      { conn with client := { conn.client with
          cmd_list_size := conn.client.cmd_list_size + (l.length + 1)
          cmd_list := l :: conn.client.cmd_list } }
      (by simpa using hw) (by simpa using hok)
      (fun x hx => hls x (by simp [hx]))
      (by simp only []; rw [hbytes] at hsz; simpa using (by omega :
        conn.client.cmd_list_size + (l.length + 1) + listBytes rest
          ≤ ctx.max_command_list_size))]
    simp [hbytes, List.append_assoc, Nat.add_assoc]

/-- Claim C9: the commands queued between a list-begin marker and
command_list_end reach the list dispatcher exactly in the order the
client sent them: accumulation prepends (so the accumulator is the
reversed sequence) and the list is reversed once at list-end, and
prepend-then-reverse is the identity on the sent order.  The recording
collaborator receives exactly one dispatch carrying the sent lines. -/
theorem claim_C9 (maxOut maxCL : Nat) (lines : List String)
    (st : List (Int × List String)) (conn : Conn)
    (hw : conn.client.idle_waiting = false)
    (hok : 0 ≤ conn.client.cmd_list_OK)
    (hnil : conn.client.cmd_list = [])
    (hls : ∀ l ∈ lines, l ≠ "noidle" ∧ l ≠ "command_list_end")
    (hsz : conn.client.cmd_list_size + listBytes lines ≤ maxCL) :
    (run_lines (recordHooks maxOut maxCL) lines st conn).2.client.cmd_list = lines.reverse
    ∧ (client_process_line (recordHooks maxOut maxCL)
        (run_lines (recordHooks maxOut maxCL) lines st conn).1
        (run_lines (recordHooks maxOut maxCL) lines st conn).2
        "command_list_end").2.2
      = st ++ [(conn.client.cmd_list_OK, lines)] := by
  rw [run_lines_accum (List (Int × List String)) (recordHooks maxOut maxCL) lines st conn
    hw hok hls hsz]
  refine ⟨by simp [hnil], ?_⟩
  unfold client_process_line
  rw [if_neg (by decide : ("command_list_end" : String) ≠ "noidle")]
  rw [if_neg (by simpa using (by rw [hw]; exact Bool.false_ne_true :
    ¬ conn.client.idle_waiting = true))]
  rw [if_pos (by simpa using hok)]
  rw [if_pos rfl]
  simp [recordHooks, hnil]
  split <;> rfl

/-- Claim C3: on a live client with an empty deferred queue, a direct
write that succeeds only partially (the socket accepts n of the length
payload bytes, 0 ≤ n < length) queues exactly the unwritten remainder —
the bytes from n to the end — as the single deferred chunk: the bytes
accepted by the socket and the queued bytes together reassemble the
payload with nothing lost and nothing duplicated, even though the source
compares the write return against send_buf_used rather than the length
argument (its caller client_write_output passes the send buffer itself,
so the two coincide). -/
theorem claim_C3 (maxOut : Nat) (conn : Conn) (n : Nat) (rest : List WriteRes)
    (hfd : 0 ≤ conn.client.fd)
    (hq : conn.client.deferred_send = [])
    (hres : conn.results = WriteRes.ok n :: rest)
    (hpart : n < conn.client.send_buf.length)
    (hcap : conn.client.deferred_bytes
        + (deferredOverhead + (conn.client.send_buf.length - n)) ≤ maxOut) :
    (client_write_output maxOut conn).client.deferred_send = [conn.client.send_buf.drop n]
    ∧ (client_write_output maxOut conn).sent = conn.sent ++ conn.client.send_buf.take n
    ∧ (client_write_output maxOut conn).client.send_buf = []
    ∧ (client_write_output maxOut conn).sent
        ++ (client_write_output maxOut conn).client.deferred_send.flatten
        ++ (client_write_output maxOut conn).client.send_buf
      = conn.sent ++ conn.client.send_buf := by
  have hmin : min n conn.client.send_buf.length = n := Nat.min_eq_left (Nat.le_of_lt hpart)
  have hstep : client_write_output maxOut conn =
      { conn with
        results := rest
        sent := conn.sent ++ conn.client.send_buf.take n
        client := { conn.client with
          send_buf := []
          deferred_send := [conn.client.send_buf.drop n]
          deferred_bytes := conn.client.deferred_bytes
            + (deferredOverhead + (conn.client.send_buf.length - n)) } } := by
    unfold client_write_output
    rw [if_neg (by omega : ¬ (conn.client.fd < 0 ∨ conn.client.send_buf.length = 0))]
    rw [if_pos (by simp [hq] : conn.client.deferred_send.isEmpty = true)]
    unfold client_write_direct
    rw [if_neg (by omega : ¬ conn.client.fd < 0), hres]
    simp only [hmin]
    rw [if_pos hpart]
    unfold client_defer_output
    rw [if_neg (by
      rw [List.length_drop]
      omega : ¬ maxOut < conn.client.deferred_bytes
        + (deferredOverhead + (conn.client.send_buf.drop n).length))]
    simp [hq, List.length_drop]
  rw [hstep]
  refine ⟨rfl, rfl, rfl, ?_⟩
  simp [List.append_assoc, List.take_append_drop]

/-! ### The deferred accounting invariant through the output path -/

/-- Accounting of a queue extended at the tail. -/
theorem deferredAccount_append (q : List (List Char)) (d : List Char) :
    deferredAccount (q ++ [d]) = deferredAccount q + (deferredOverhead + d.length) := by
  simp [deferredAccount]

/-- Expiring a client preserves the (liveness-conditional) invariant. -/
theorem inv_client_set_expired (c : Client) :
    deferred_inv (client_set_expired c) := by
  unfold client_set_expired deferred_inv
  split
  · intro h
    simp at h
  · intro h
    omega

/-- client_defer_output preserves the invariant: a successful defer adds
the accounted size to both sides, while an over-cap defer expires the
client. -/
theorem inv_client_defer_output (maxOut : Nat) (c : Client) (data : List Char)
    (hinv : deferred_inv c) :
    deferred_inv (client_defer_output maxOut c data) := by
  unfold client_defer_output
  split
  · exact inv_client_set_expired _
  · intro h
    simp only at h ⊢
    rw [deferredAccount_append, ← hinv h]


/-- The drain loop of client_write_deferred preserves the invariant:
partial writes shrink the head chunk and the counter by the same amount,
full writes pop the chunk and credit its accounted size. -/
theorem inv_cwd_loop (results : List WriteRes) :
    ∀ (c : Client) (sent : List Char), deferred_inv c →
    deferred_inv (cwd_loop c sent results).1 := by
  induction results with
  | nil =>
    intro c sent hinv
    unfold cwd_loop
    split
    · exact hinv
    · split
      · exact inv_client_set_expired c
      · exact hinv
  | cons r rs ih =>
    intro c sent hinv
    unfold cwd_loop
    split
    · exact hinv
    · rename_i buf tail heq
      split
      · exact inv_client_set_expired c
      · rename_i hfd
        split
        · exact hinv
        · exact hinv
        · exact inv_client_set_expired c
        · rename_i n
          split
          · rename_i hlt
            intro h
            simp only at h ⊢
            have hb := hinv h
            rw [heq] at hb
            simp only [deferredAccount, List.map_cons, List.sum_cons] at hb ⊢
            rw [List.length_drop]
            have hm : min n buf.length ≤ buf.length := Nat.min_le_right n buf.length
            omega
          · rename_i hge
            apply ih
            intro h
            simp only at h ⊢
            have hb := hinv h
            rw [heq] at hb
            simp only [deferredAccount, List.map_cons, List.sum_cons] at hb ⊢
            omega

/-- client_write_deferred preserves the accounting invariant. -/
theorem inv_client_write_deferred (conn : Conn) (hinv : deferred_inv conn.client) :
    deferred_inv (client_write_deferred conn).client := by
  unfold client_write_deferred
  exact inv_cwd_loop conn.results conn.client conn.sent hinv

/-- client_write_direct preserves the accounting invariant through all
its outcomes (defer, hard error, partial, full). -/
theorem inv_client_write_direct (maxOut : Nat) (conn : Conn) (data : List Char)
    (hinv : deferred_inv conn.client) :
    deferred_inv (client_write_direct maxOut conn data).client := by
  unfold client_write_direct
  split
  · exact inv_client_set_expired _
  · split
    · exact inv_client_defer_output maxOut _ _ hinv
    · exact inv_client_defer_output maxOut _ _ hinv
    · exact inv_client_defer_output maxOut _ _ hinv
    · exact inv_client_set_expired _
    · split
      · exact inv_client_defer_output maxOut _ _ hinv
      · exact hinv

/-- client_write_output preserves the accounting invariant. -/
theorem inv_client_write_output (maxOut : Nat) (conn : Conn)
    (hinv : deferred_inv conn.client) :
    deferred_inv (client_write_output maxOut conn).client := by
  unfold client_write_output
  split
  · exact hinv
  · split
    · exact inv_client_write_direct maxOut conn conn.client.send_buf hinv
    · exact inv_client_write_deferred _ (inv_client_defer_output maxOut _ _ hinv)

/-- The client_write loop preserves the accounting invariant for any
fuel. -/
theorem inv_client_write_go (maxOut : Nat) : ∀ (fuel : Nat) (data : List Char)
    (conn : Conn), deferred_inv conn.client →
    deferred_inv (client_write_go maxOut fuel conn data).client := by
  intro fuel
  induction fuel with
  | zero =>
    intro data conn hinv
    exact hinv
  | succ fuel ih =>
    intro data conn hinv
    unfold client_write_go
    split
    · exact hinv
    · split
      · exact hinv
      · split
        · exact hinv
        · apply ih
          split
          · exact inv_client_write_output maxOut _ hinv
          · exact hinv

/-- client_write preserves the accounting invariant. -/
theorem inv_client_write (maxOut : Nat) (conn : Conn) (data : List Char)
    (hinv : deferred_inv conn.client) :
    deferred_inv (client_write maxOut conn data).client := by
  unfold client_write
  split
  · exact hinv
  · exact inv_client_write_go maxOut data.length data conn hinv

/-- client_puts preserves the accounting invariant. -/
theorem inv_client_puts (maxOut : Nat) (conn : Conn) (s : String)
    (hinv : deferred_inv conn.client) :
    deferred_inv (client_puts maxOut conn s).client :=
  inv_client_write maxOut conn s.data hinv

/-- client_vprintf preserves the accounting invariant. -/
theorem inv_client_vprintf (maxOut : Nat) (conn : Conn) (length : Int)
    (formatted : List Char) (hinv : deferred_inv conn.client) :
    deferred_inv (client_vprintf maxOut conn length formatted).client := by
  unfold client_vprintf
  split
  · exact hinv
  · exact inv_client_write maxOut conn _ hinv

/-- client_printf preserves the accounting invariant. -/
theorem inv_client_printf (maxOut : Nat) (conn : Conn) (s : String)
    (hinv : deferred_inv conn.client) :
    deferred_inv (client_printf maxOut conn s).client :=
  inv_client_vprintf maxOut conn _ _ hinv

/-- The notification loop preserves the accounting invariant. -/
theorem inv_notify_loop (maxOut : Nat) (flags : Nat) (names : List String) :
    ∀ (i : Nat) (conn : Conn), deferred_inv conn.client →
    deferred_inv (notify_loop maxOut flags i names conn).client := by
  induction names with
  | nil =>
    intro i conn hinv
    exact hinv
  | cons name rest ih =>
    intro i conn hinv
    unfold notify_loop
    apply ih
    split
    · exact inv_client_printf maxOut conn _ hinv
    · exact hinv

/-- client_idle_notify preserves the accounting invariant. -/
theorem inv_client_idle_notify (maxOut : Nat) (names : List String) (conn : Conn)
    (hinv : deferred_inv conn.client) :
    deferred_inv (client_idle_notify maxOut names conn).client := by
  unfold client_idle_notify
  apply inv_client_puts
  apply inv_notify_loop
  exact hinv

/-- client_idle_wait preserves the accounting invariant. -/
theorem inv_client_idle_wait (maxOut : Nat) (names : List String) (conn : Conn) (flags : Nat)
    (hinv : deferred_inv conn.client) :
    deferred_inv (client_idle_wait maxOut names conn flags).2.client := by
  unfold client_idle_wait
  split
  · exact inv_client_idle_notify maxOut names _ hinv
  · exact hinv

/-- The per-client body of client_manager_idle_add preserves the
accounting invariant. -/
theorem inv_idle_add_one (maxOut : Nat) (names : List String) (flags : Nat) (conn : Conn)
    (hinv : deferred_inv conn.client) :
    deferred_inv (idle_add_one maxOut names flags conn).client := by
  unfold idle_add_one
  split
  · exact hinv
  · dsimp only
    split
    · exact inv_client_write_output maxOut _ (inv_client_idle_notify maxOut names _ hinv)
    · exact hinv

/-- Claim C2 (amended): every public output operation — client_write,
client_puts, client_vprintf, client_printf, the deferred drain,
client_idle_wait, and client_manager_idle_add over the whole registry —
preserves the deferred accounting invariant for live clients:
deferred_bytes equals the accounted sum (overhead + payload per chunk) of
the deferred queue whenever fd is non-negative.  (For a client expired by
an over-cap defer the equality does not survive — see the
counterexample — which is what restricts the claim to live clients.) -/
theorem claim_C2 (maxOut : Nat) (names : List String) (conn : Conn) (data : List Char)
    (s : String) (length : Int) (formatted : List Char) (flags : Nat) (registry : List Conn) :
    (deferred_inv conn.client → deferred_inv (client_write maxOut conn data).client)
    ∧ (deferred_inv conn.client → deferred_inv (client_puts maxOut conn s).client)
    ∧ (deferred_inv conn.client →
        deferred_inv (client_vprintf maxOut conn length formatted).client)
    ∧ (deferred_inv conn.client → deferred_inv (client_printf maxOut conn s).client)
    ∧ (deferred_inv conn.client → deferred_inv (client_write_deferred conn).client)
    ∧ (deferred_inv conn.client →
        deferred_inv (client_idle_wait maxOut names conn flags).2.client)
    ∧ ((∀ c ∈ registry, deferred_inv c.client) →
        ∀ c ∈ client_manager_idle_add maxOut names flags registry, deferred_inv c.client) := by
  refine ⟨inv_client_write maxOut conn data, inv_client_puts maxOut conn s,
    inv_client_vprintf maxOut conn length formatted, inv_client_printf maxOut conn s,
    inv_client_write_deferred conn, inv_client_idle_wait maxOut names conn flags, ?_⟩
  intro hall c hc
  unfold client_manager_idle_add at hc
  obtain ⟨a, ha, rfl⟩ := List.mem_map.mp hc
  exact inv_idle_add_one maxOut names flags a (hall a ha)

/-- Counterexample to claim C2 as stated: broadcasting one idle event to
connCE (a parked client with 9 accounted bytes queued, under a cap of 9)
makes the notification defer overflow the cap, expiring the client; the
client is still in the registry, its deferred_bytes reads 36 while the
queue still accounts for only 9 — the invariant does not hold for the
cap-expired client. -/
theorem claim_C2_counterexample :
    ((client_manager_idle_add 9 ["player"] 1 [connCE]).head?.map
        (fun conn => (conn.client.fd, conn.client.deferred_bytes,
          deferredAccount conn.client.deferred_send)))
      = some (-1, 36, 9)
    ∧ (36 : Nat) ≠ 9 := by
  constructor
  · decide
  · decide

/-- Witness for claim C2 at concrete inputs: a fresh client satisfies the
invariant, keeps it across a one-byte client_write, and a broadcast over
a one-client registry keeps it for every member. -/
theorem claim_C2_witness :
    deferred_inv conn0.client
    ∧ deferred_inv (client_write 100 conn0 [' ']).client
    ∧ (∀ c ∈ client_manager_idle_add 100 ["player"] 1 [connW], deferred_inv c.client) := by
  have hinv0 : deferred_inv conn0.client := fun _ => rfl
  have hinvW : deferred_inv connW.client := fun _ => rfl
  refine ⟨hinv0, (claim_C2 100 ["player"] conn0 [' '] "x" 1 [' '] 1 [connW]).1 hinv0, ?_⟩
  apply (claim_C2 100 ["player"] conn0 [' '] "x" 1 [' '] 1 [connW]).2.2.2.2.2.2
  intro c hc
  simp at hc
  subst hc
  exact hinvW

/-- Claim C1 (divergence witness): a fresh client processes
command_list_begin, queues ping (accounted 4 + 1 = 5 bytes), and
terminates the list with command_list_end.  Afterwards command-list mode
is off (cmd_list_OK = -1) and cmd_list is empty, but cmd_list_size is
still 5, not 0: client_process_line never resets the counter after
dispatch (it is only zeroed in client_init), so the invariant claimed in
the spec fails at this input. -/
theorem claim_C1 :
    ((client_process_line hooks0 ()
        (client_process_line hooks0 ()
          (client_process_line hooks0 () conn0 "command_list_begin").2.1
          "ping").2.1
        "command_list_end").2.1.client.cmd_list_OK = -1)
    ∧ ((client_process_line hooks0 ()
        (client_process_line hooks0 ()
          (client_process_line hooks0 () conn0 "command_list_begin").2.1
          "ping").2.1
        "command_list_end").2.1.client.cmd_list = [])
    ∧ ((client_process_line hooks0 ()
        (client_process_line hooks0 ()
          (client_process_line hooks0 () conn0 "command_list_begin").2.1
          "ping").2.1
        "command_list_end").2.1.client.cmd_list_size = 5)
    ∧ ¬ ((client_process_line hooks0 ()
        (client_process_line hooks0 ()
          (client_process_line hooks0 () conn0 "command_list_begin").2.1
          "ping").2.1
        "command_list_end").2.1.client.cmd_list_size = 0) := by
  refine ⟨by decide, by decide, by decide, by decide⟩

/-- Claim C10: client_vprintf returns without producing any output or
changing any state whenever the measured format length is zero or
negative; output is produced only for strictly positive lengths, in which
case exactly that many formatted bytes are handed to client_write (and
appended to the send buffer when they fit on a live client); and
client_printf is exactly the vprintf delegation. -/
theorem claim_C10 (maxOut : Nat) (conn : Conn) (length : Int) (formatted : List Char)
    (s : String) :
    (length ≤ 0 → client_vprintf maxOut conn length formatted = conn)
    ∧ (0 < length →
        client_vprintf maxOut conn length formatted
          = client_write maxOut conn (formatted.take length.toNat))
    ∧ (0 < length → 0 ≤ conn.client.fd →
        conn.client.send_buf.length + (formatted.take length.toNat).length < 4096 →
        client_vprintf maxOut conn length formatted =
          { conn with client := { conn.client with
              send_buf := conn.client.send_buf ++ formatted.take length.toNat } })
    ∧ client_printf maxOut conn s = client_vprintf maxOut conn (s.length : Int) s.data := by
  refine ⟨fun h => ?_, fun h => ?_, fun h hfd hroom => ?_, rfl⟩
  · unfold client_vprintf
    rw [if_pos h]
  · unfold client_vprintf
    rw [if_neg (by omega)]
  · unfold client_vprintf
    rw [if_neg (by omega)]
    exact client_write_append maxOut conn (formatted.take length.toNat) hfd hroom

/-- Witness for claim C10 at concrete inputs: a negative measured length
leaves the fresh client untouched, and a length of 2 writes exactly the
first two formatted bytes into the send buffer. -/
theorem claim_C10_witness :
    client_vprintf 100 conn0 (-1) ['x'] = conn0
    ∧ client_vprintf 100 conn0 2 ['h', 'i', '!'] =
        { conn0 with client := { conn0.client with send_buf := ['h', 'i'] } } := by
  constructor
  · exact (claim_C10 100 conn0 (-1) ['x'] "x").1 (by decide)
  · rw [(claim_C10 100 conn0 2 ['h', 'i', '!'] "x").2.2.1 (by decide) (by decide) (by decide)]
    decide

/-- Witness for claim C3 at a concrete input: of the four buffered bytes
the socket accepts two; the other two become the single deferred chunk
and nothing is lost or duplicated. -/
theorem claim_C3_witness :
    (client_write_output 100 connC3).client.deferred_send = [['c', 'd']]
    ∧ (client_write_output 100 connC3).sent = ['a', 'b']
    ∧ (client_write_output 100 connC3).sent
        ++ (client_write_output 100 connC3).client.deferred_send.flatten
        ++ (client_write_output 100 connC3).client.send_buf
      = ['a', 'b', 'c', 'd'] := by
  have h := claim_C3 100 connC3 2 [] (by decide) (by decide) (by decide) (by decide) (by decide)
  refine ⟨by rw [h.1]; decide, by rw [h.2.1]; decide, ?_⟩
  rw [h.1, h.2.1, h.2.2.1]
  decide

/-- Witness for claim C4 at concrete inputs: a client with pending flag
bit 0 entering idle on bit 0 is delivered synchronously — the changed:
line and OK land in its send buffer and the idle state drains — while a
fresh client is parked. -/
theorem claim_C4_witness :
    (client_idle_wait 100 ["player"] connF 1).1 = true
    ∧ (client_idle_wait 100 ["player"] connF 1).2 =
        { connF with client := { connF.client with
            idle_waiting := false
            idle_subscriptions := 1
            idle_flags := 0
            send_buf := ("changed: player\nOK\n").data } }
    ∧ (client_idle_wait 100 ["player"] conn0 1).1 = false := by
  have h := claim_C4 100 ["player"] connF 1 (by decide) (by decide) (by decide)
  have h0 := claim_C4 100 ["player"] conn0 1 (by decide) (by decide) (by decide)
  refine ⟨(h.1).mpr (by decide), ?_, (h0.2.2 (by decide)).1⟩
  rw [h.2.1 (by decide)]
  decide

/-- Witness for claim C5 at a concrete input: broadcasting bit 0 to a
one-client registry holding a parked subscriber delivers the
notification into its deferred queue and clears its idle state. -/
theorem claim_C5_witness :
    idle_add_one 100 ["player"] 1 connW =
      { connW with client := { connW.client with
          idle_flags := 0
          idle_waiting := false
          send_buf := []
          deferred_send := [("changed: player\nOK\n").data]
          deferred_bytes := 27 } }
    ∧ client_manager_idle_add 100 ["player"] 1 [connW] =
      [{ connW with client := { connW.client with
          idle_flags := 0
          idle_waiting := false
          send_buf := []
          deferred_send := [("changed: player\nOK\n").data]
          deferred_bytes := 27 } }] := by
  have h := (claim_C5 100 ["player"] 1 [connW] (by decide)).2 connW
  have hd := h.2.2 (by decide) (by decide) (by decide) (by decide) (by decide) (by decide)
    (by decide) (by decide)
  constructor
  · rw [hd]
    decide
  · rw [(claim_C5 100 ["player"] 1 [connW] (by decide)).1]
    simp only [List.map_cons, List.map_nil]
    rw [hd]
    decide

/-- Witness for claim C6 at concrete inputs: noidle on the parked connW
answers a bare OK (deferred, as its socket would block) and clears the
idle wait; noidle on the fresh conn0 changes nothing. -/
theorem claim_C6_witness :
    client_process_line hooks0 () connW "noidle" =
      (0, { connW with client := { connW.client with
          idle_waiting := false
          send_buf := []
          deferred_send := [("OK\n").data]
          deferred_bytes := 11 } }, ())
    ∧ client_process_line hooks0 () conn0 "noidle" = (0, conn0, ()) := by
  have h := claim_C6 Unit hooks0 () connW
  have h0 := claim_C6 Unit hooks0 () conn0
  constructor
  · rw [h.1 (by decide) (by decide) (by decide) (by decide) (by decide) (by decide)]
    decide
  · exact h0.2 (by decide)

/-- Witness for claim C7 at concrete inputs under a 5-byte cap: the line
ping accounts to exactly the cap and is appended; the line pingx
overflows by one byte and yields close without being appended. -/
theorem claim_C7_witness :
    client_process_line hooksSmall () connL "ping" =
      (1, { connL with client := { connL.client with
          cmd_list_size := 5
          cmd_list := ["ping"] } }, ())
    ∧ client_process_line hooksSmall () connL "pingx" =
      (COMMAND_RETURN_CLOSE, { connL with client := { connL.client with
          cmd_list_size := 6 } }, ()) := by
  have h1 := (claim_C7 Unit hooksSmall () connL "ping" (by decide) (by decide) (by decide)
    (by decide)).1 (by decide)
  have h2 := (claim_C7 Unit hooksSmall () connL "pingx" (by decide) (by decide) (by decide)
    (by decide)).2 (by decide)
  constructor
  · rw [h1]
    decide
  · rw [h2]
    decide

/-- Witness for claim C9 at a concrete input: queueing ping then status
leaves the accumulator reversed, and command_list_end hands the recording
dispatcher exactly the two commands in sent order. -/
theorem claim_C9_witness :
    (run_lines (recordHooks 100 50) ["ping", "status"] [] connL).2.client.cmd_list
      = ["status", "ping"]
    ∧ (client_process_line (recordHooks 100 50)
        (run_lines (recordHooks 100 50) ["ping", "status"] [] connL).1
        (run_lines (recordHooks 100 50) ["ping", "status"] [] connL).2
        "command_list_end").2.2
      = [((0 : Int), ["ping", "status"])] := by
  have h := claim_C9 100 50 ["ping", "status"] [] connL (by decide) (by decide) (by decide)
    (by intro l hl; fin_cases hl <;> exact ⟨by decide, by decide⟩) (by decide)
  exact ⟨by rw [h.1]; decide, by rw [h.2]; decide⟩

theorem string_ne_of_length (s t : String) (h : s.data.length ≠ t.data.length) : s ≠ t :=
  fun he => h (by rw [he])

theorem process_lines_replicate (σ : Type) (ctx : Ctx σ) (c : Char) (hc : c ≠ '\n') :
    ∀ (k : Nat) (st : σ) (conn : Conn) (accRev : List Char) (consumed : Nat)
      (tail : List Char),
    process_lines ctx st conn accRev consumed (List.replicate k c ++ tail)
      = process_lines ctx st conn (List.replicate k c ++ accRev) consumed tail := by
  intro k
  induction k with
  | zero =>
    intro st conn accRev consumed tail
    simp
  | succ k ih =>
    intro st conn accRev consumed tail
    rw [List.replicate_succ, List.cons_append]
    show process_lines ctx st conn accRev consumed (c :: (List.replicate k c ++ tail)) = _
    unfold process_lines
    rw [if_neg hc]
    rw [ih st conn (c :: accRev) consumed tail]
    have hrep : List.replicate k c ++ [c] = c :: List.replicate k c := by
      rw [← List.replicate_succ', List.replicate_succ]
    have hswap : ∀ l : List Char,
        List.replicate k c ++ c :: l = c :: (List.replicate k c ++ l) := by
      intro l
      rw [← List.singleton_append, ← List.append_assoc, hrep]
      simp
    rw [process_lines.eq_def]
    simp [List.replicate_succ, hrep, hswap, List.length_append, List.length_replicate,
      List.length_cons, Nat.add_assoc, Nat.add_comm, Nat.add_left_comm]

theorem process_lines_no_nl (σ : Type) (ctx : Ctx σ) :
    ∀ (l : List Char), '\n' ∉ l →
    ∀ (st : σ) (conn : Conn) (accRev : List Char) (consumed : Nat) (tail : List Char),
    process_lines ctx st conn accRev consumed (l ++ tail)
      = process_lines ctx st conn (l.reverse ++ accRev) consumed tail := by
  intro l
  induction l with
  | nil =>
    intro _ st conn accRev consumed tail
    rfl
  | cons c cs ih =>
    intro hnl st conn accRev consumed tail
    have hc : c ≠ '\n' := by
      intro h
      subst h
      exact hnl (List.mem_cons_self _ _)
    have hcs : '\n' ∉ cs := fun h => hnl (List.mem_cons_of_mem c h)
    rw [List.cons_append]
    show process_lines ctx st conn accRev consumed (c :: (cs ++ tail)) = _
    unfold process_lines
    rw [if_neg hc]
    rw [ih hcs st conn (c :: accRev) consumed tail]
    rw [List.reverse_cons, List.append_assoc, List.singleton_append]
    rw [process_lines.eq_def]

theorem client_write_output_direct_full (maxOut : Nat) (conn : Conn) (n : Nat)
    (rest : List WriteRes)
    (hfd : 0 ≤ conn.client.fd)
    (hsb : conn.client.send_buf ≠ [])
    (hq : conn.client.deferred_send = [])
    (hres : conn.results = WriteRes.ok n :: rest)
    (hfull : conn.client.send_buf.length ≤ n) :
    client_write_output maxOut conn =
      { conn with
        results := rest
        sent := conn.sent ++ conn.client.send_buf
        client := { conn.client with send_buf := [] } } := by
  have hlen : conn.client.send_buf.length ≠ 0 := by
    have := List.length_pos.mpr hsb
    omega
  unfold client_write_output
  rw [if_neg (by omega : ¬ (conn.client.fd < 0 ∨ conn.client.send_buf.length = 0))]
  rw [if_pos (by simp [hq] : conn.client.deferred_send.isEmpty = true)]
  unfold client_write_direct
  rw [if_neg (by omega : ¬ conn.client.fd < 0), hres]
  dsimp only
  rw [Nat.min_eq_right hfull]
  rw [if_neg (by omega : ¬ conn.client.send_buf.length < conn.client.send_buf.length)]
  rw [List.take_length]

theorem process_line_plain_ok (σ : Type) (ctx : Ctx σ) (st : σ) (conn : Conn) (line : String)
    (hnl : line ≠ "noidle")
    (hw : conn.client.idle_waiting = false)
    (hok : conn.client.cmd_list_OK < 0)
    (hb1 : line ≠ "command_list_begin")
    (hb2 : line ≠ "command_list_ok_begin")
    (hcmd : ctx.command_process st conn line = (0, conn, st))
    (hfd : 0 ≤ conn.client.fd) :
    client_process_line ctx st conn line =
      (0, client_write_output ctx.max_output_buffer_size
            (command_success ctx.max_output_buffer_size conn), st) := by
  unfold client_process_line
  rw [if_neg hnl, if_neg (by rw [hw]; exact Bool.false_ne_true),
    if_neg (by omega : ¬ 0 ≤ conn.client.cmd_list_OK), if_neg hb1, if_neg hb2]
  rw [hcmd]
  dsimp only
  rw [if_neg (by
    push_neg
    constructor
    · decide
    · omega)]
  rw [if_pos rfl]



theorem client_input_received_consumed (σ : Type) (ctx : Ctx σ) (st : σ) (conn : Conn)
    (data : List Char) (conn2 : Conn) (st2 : σ) (consumed : Nat) (rest : List Char)
    (hscan : process_lines ctx st
        { conn with client := { conn.client with buffer := conn.client.buffer ++ data } } [] 0
        ((conn.client.buffer ++ data).drop conn.client.bufferPos)
      = (0, conn2, st2, consumed))
    (hlen : conn2.client.buffer.length = 4096)
    (hpos : conn2.client.bufferPos + consumed ≠ 0)
    (hdrop : conn2.client.buffer.drop (conn2.client.bufferPos + consumed) = rest) :
    client_input_received ctx st conn data =
      (0, { conn2 with client := { conn2.client with
          buffer := rest
          bufferPos := 0 } }, st2) := by
  unfold client_input_received
  dsimp only
  rw [hscan]
  dsimp only
  rw [if_neg (by decide : ¬ ((0 : Int) = COMMAND_RETURN_KILL ∨ (0 : Int) = COMMAND_RETURN_CLOSE))]
  rw [if_pos hlen, if_neg hpos, hdrop]

theorem client_input_received_overflow (σ : Type) (ctx : Ctx σ) (st : σ) (conn : Conn)
    (data : List Char) (conn2 : Conn) (st2 : σ)
    (hscan : process_lines ctx st
        { conn with client := { conn.client with buffer := conn.client.buffer ++ data } } [] 0
        ((conn.client.buffer ++ data).drop conn.client.bufferPos)
      = (0, conn2, st2, 0))
    (hlen : conn2.client.buffer.length = 4096)
    (hpos : conn2.client.bufferPos = 0) :
    client_input_received ctx st conn data = (COMMAND_RETURN_CLOSE, conn2, st2) := by
  unfold client_input_received
  dsimp only
  rw [hscan]
  dsimp only
  rw [if_neg (by decide : ¬ ((0 : Int) = COMMAND_RETURN_KILL ∨ (0 : Int) = COMMAND_RETURN_CLOSE))]
  rw [if_pos hlen, if_pos (by rw [hpos] : conn2.client.bufferPos + 0 = 0)]

theorem scanA : process_lines hooks0 ()
    { conn0ok3 with client :=
      { conn0ok3.client with buffer := conn0ok3.client.buffer ++ (lineA ++ ['\n']) } } [] 0
    ((conn0ok3.client.buffer ++ (lineA ++ ['\n'])).drop conn0ok3.client.bufferPos)
    = (0, connA3, (), 4096) := by
  have hb : conn0ok3.client.buffer = [] := rfl
  have hp : conn0ok3.client.bufferPos = 0 := rfl
  rw [hb, hp, List.nil_append, List.drop_zero]
  simp only [lineA]
  rw [process_lines_replicate Unit hooks0 'a' (by decide) 4095 () _ [] 0 ['\n']]
  rw [List.append_nil]
  rw [show (['\n'] : List Char) = '\n' :: [] from rfl]
  unfold process_lines
  rw [if_pos rfl]
  dsimp only
  rw [List.reverse_replicate]
  rw [show stripCR (List.replicate 4095 'a') = List.replicate 4095 'a' from by
    unfold stripCR
    rw [if_neg (by
      rw [show (4095 : Nat) = 4094 + 1 from rfl, List.replicate_succ', List.getLast?_concat]
      decide)]]
  have hline : client_process_line hooks0 ()
      { conn0ok3 with client :=
        { conn0ok3.client with buffer := List.replicate 4095 'a' ++ ['\n'] } }
      (String.mk (List.replicate 4095 'a'))
    = (0, { conn0ok3 with
        client := { conn0ok3.client with
          buffer := List.replicate 4095 'a' ++ ['\n']
          send_buf := [] }
        results := []
        sent := ("OK\n").data }, ()) := by
    rw [process_line_plain_ok Unit hooks0 () _ _
      (string_ne_of_length _ _ (by
        rw [show (String.mk (List.replicate 4095 'a')).data = List.replicate 4095 'a' from rfl,
          List.length_replicate]
        decide))
      rfl
      (by decide)
      (string_ne_of_length _ _ (by
        rw [show (String.mk (List.replicate 4095 'a')).data = List.replicate 4095 'a' from rfl,
          List.length_replicate]
        decide))
      (string_ne_of_length _ _ (by
        rw [show (String.mk (List.replicate 4095 'a')).data = List.replicate 4095 'a' from rfl,
          List.length_replicate]
        decide))
      rfl
      (by decide)]
    unfold command_success
    rw [client_puts_append _ _ "OK\n" (by decide) (by decide)]
    rw [client_write_output_direct_full _ _ 3 [] (by decide) (by decide) rfl rfl (by decide)]
    rfl
  rw [hline]
  dsimp only
  rw [if_neg (by decide : ¬ ((0 : Int) = COMMAND_RETURN_KILL ∨ (0 : Int) = COMMAND_RETURN_CLOSE))]
  rw [if_neg (by decide : ¬ conn0ok3.client.fd < 0)]
  rw [List.length_replicate]
  unfold process_lines
  rfl

theorem scanB : process_lines hooks0 ()
    { conn0 with client := { conn0.client with buffer := conn0.client.buffer ++ lineB } } [] 0
    ((conn0.client.buffer ++ lineB).drop conn0.client.bufferPos)
    = (0, connB2, (), 0) := by
  have hb : conn0.client.buffer = [] := rfl
  have hp : conn0.client.bufferPos = 0 := rfl
  rw [hb, hp, List.nil_append, List.drop_zero]
  simp only [lineB]
  rw [show (List.replicate 4096 'b' : List Char)
    = List.replicate 4096 'b' ++ [] from (List.append_nil _).symm]
  rw [process_lines_replicate Unit hooks0 'b' (by decide) 4096 () _ [] 0 []]
  unfold process_lines
  rw [List.append_nil]
  rfl

/-- What the trivial collaborator's line processor makes of the 4095-byte
line: the command succeeds silently, the OK reply is coalesced and flushed
to the 3-byte-accepting socket, and the inbound buffer is untouched. -/
theorem processA :
    client_process_line hooks0 ()
      { conn0ok3 with client := { conn0ok3.client with buffer := lineA ++ ['\n'] } }
      (String.mk (stripCR lineA))
    = (0, connA3, ()) := by
  rw [show stripCR lineA = lineA from by
    unfold stripCR lineA
    rw [if_neg (by
      rw [show (4095 : Nat) = 4094 + 1 from rfl, List.replicate_succ', List.getLast?_concat]
      decide)]]
  rw [process_line_plain_ok Unit hooks0 () _ _
    (string_ne_of_length _ _ (by
      rw [show (String.mk lineA).data = lineA from rfl,
        show lineA = List.replicate 4095 'a' from rfl, List.length_replicate]
      decide))
    rfl
    (by decide)
    (string_ne_of_length _ _ (by
      rw [show (String.mk lineA).data = lineA from rfl,
        show lineA = List.replicate 4095 'a' from rfl, List.length_replicate]
      decide))
    (string_ne_of_length _ _ (by
      rw [show (String.mk lineA).data = lineA from rfl,
        show lineA = List.replicate 4095 'a' from rfl, List.length_replicate]
      decide))
    rfl
    (by decide)]
  unfold command_success
  rw [client_puts_append _ _ "OK\n" (by decide) (by decide)]
  rw [client_write_output_direct_full _ _ 3 [] (by decide) (by decide) rfl rfl (by decide)]
  rfl

/-- Claim C8: for every client with an empty inbound buffer, under any
command collaborator and collaborator state: (a) a line of exactly 4095
newline-free bytes followed by a newline fills the 4096-byte buffer, is
parsed (one line, an optional trailing carriage return stripped) and
handed to the line processor, and — whenever the processor neither kills
nor closes nor expires the client and leaves the inbound buffer fields
alone, as real commands do — the fully consumed buffer is recycled to
empty; (b) 4096 bytes arriving without any newline leave the buffer full
with nothing consumed and make the read path answer close (line-too-long
overflow), the client otherwise untouched, the line processor never
invoked and no output produced. -/
theorem claim_C8 (σ : Type) (ctx : Ctx σ) (st : σ) (conn : Conn)
    (hbuf : conn.client.buffer = []) (hpos : conn.client.bufferPos = 0) :
    (∀ (line : List Char), line.length = 4095 → '\n' ∉ line →
      ∀ r : Int × Conn × σ,
        r = client_process_line ctx st
              { conn with client := { conn.client with buffer := line ++ ['\n'] } }
              (String.mk (stripCR line)) →
        r.1 ≠ COMMAND_RETURN_KILL →
        r.1 ≠ COMMAND_RETURN_CLOSE →
        0 ≤ r.2.1.client.fd →
        r.2.1.client.buffer = line ++ ['\n'] →
        r.2.1.client.bufferPos = 0 →
        client_read ctx st conn (ReadRes.bytes (line ++ ['\n']))
          = (0, { r.2.1 with client := { r.2.1.client with buffer := [], bufferPos := 0 } },
             r.2.2))
    ∧ (∀ (big : List Char), big.length = 4096 → '\n' ∉ big →
        client_read ctx st conn (ReadRes.bytes big)
          = (COMMAND_RETURN_CLOSE,
             { conn with client := { conn.client with buffer := big } }, st)) := by
  constructor
  · intro line hlen hnl r hr hk hc hfd hkeep hkpos
    have hl : (line ++ ['\n']).length = 4096 := by
      rw [List.length_append, hlen]
      rfl
    have hscan : process_lines ctx st
        { conn with client := { conn.client with buffer := conn.client.buffer ++ (line ++ ['\n']) } }
        [] 0 ((conn.client.buffer ++ (line ++ ['\n'])).drop conn.client.bufferPos)
        = (0, r.2.1, r.2.2, 4096) := by
      rw [hbuf, hpos, List.nil_append, List.drop_zero]
      rw [process_lines_no_nl σ ctx line hnl st _ [] 0 ['\n']]
      rw [List.append_nil]
      rw [show (['\n'] : List Char) = '\n' :: [] from rfl]
      unfold process_lines
      rw [if_pos rfl]
      dsimp only
      rw [List.reverse_reverse]
      rw [← hr]
      rw [if_neg (not_or.mpr ⟨hk, hc⟩)]
      rw [if_neg (by omega : ¬ r.2.1.client.fd < 0)]
      rw [List.length_reverse, hlen]
      unfold process_lines
      rfl
    unfold client_read
    dsimp only
    rw [hbuf]
    simp only [List.length_nil, Nat.sub_zero]
    rw [List.take_of_length_le hl.le]
    rw [if_neg (by rw [hl]; decide)]
    rw [client_input_received_consumed σ ctx st conn (line ++ ['\n']) r.2.1 r.2.2 4096 []
      hscan
      (by rw [hkeep]; exact hl)
      (by omega)
      (by rw [hkpos, hkeep, Nat.zero_add, ← hl, List.drop_length])]
  · intro big hblen hbnl
    have hscan : process_lines ctx st
        { conn with client := { conn.client with buffer := conn.client.buffer ++ big } } [] 0
        ((conn.client.buffer ++ big).drop conn.client.bufferPos)
        = (0, { conn with client := { conn.client with buffer := big } }, st, 0) := by
      rw [hbuf, hpos, List.nil_append, List.drop_zero]
      have h1 := process_lines_no_nl σ ctx big hbnl st
        { conn with client := { conn.client with buffer := big } } [] 0 []
      simp only [List.append_nil] at h1
      rw [h1]
      unfold process_lines
      rfl
    unfold client_read
    dsimp only
    rw [hbuf]
    simp only [List.length_nil, Nat.sub_zero]
    rw [List.take_of_length_le hblen.le]
    rw [if_neg (by rw [hblen]; decide)]
    exact client_input_received_overflow σ ctx st conn big
      { conn with client := { conn.client with buffer := big } } st hscan hblen hpos

/-- Witness for claim C8 at concrete inputs: on a fresh client with the
trivial collaborator, the 4095-byte line of letters plus newline is parsed,
answered with OK on the socket and the buffer recycles to a fresh state;
4096 letters with no newline answer close with the full untouched buffer. -/
theorem claim_C8_witness :
    client_read hooks0 () conn0ok3 (ReadRes.bytes (lineA ++ ['\n']))
      = (0, { client := client_init 0 0 (-1) 0, results := [], sent := ("OK\n").data }, ())
    ∧ client_read hooks0 () conn0 (ReadRes.bytes lineB)
      = (COMMAND_RETURN_CLOSE,
         { client := { client_init 0 0 (-1) 0 with buffer := lineB }
           results := []
           sent := [] }, ()) := by
  have hlenA : lineA.length = 4095 := by
    rw [show lineA = List.replicate 4095 'a' from rfl, List.length_replicate]
  have hnlA : '\n' ∉ lineA := by
    intro h
    rw [show lineA = List.replicate 4095 'a' from rfl] at h
    exact absurd (List.eq_of_mem_replicate h) (by decide)
  have hlenB : lineB.length = 4096 := by
    rw [show lineB = List.replicate 4096 'b' from rfl, List.length_replicate]
  have hnlB : '\n' ∉ lineB := by
    intro h
    rw [show lineB = List.replicate 4096 'b' from rfl] at h
    exact absurd (List.eq_of_mem_replicate h) (by decide)
  have hA := (claim_C8 Unit hooks0 () conn0ok3 rfl rfl).1 lineA hlenA hnlA
    (0, connA3, ()) processA.symm (by decide) (by decide) (by decide) rfl rfl
  have hB := (claim_C8 Unit hooks0 () conn0 rfl rfl).2 lineB hlenB hnlB
  exact ⟨by rw [hA]; rfl, by rw [hB]; rfl⟩
